import Mathlib

/-!
Verification development for the wedding-photo-qr-app server (`server.js`).

JavaScript strings are modelled as lists of characters (`JStr`); JavaScript
objects become Lean structures; `fs`, the supabase client and the multer
middleware are modelled as explicit state or Bool/Option oracles, so every
definition is executable.  Unicode NFKD normalization is modelled as the
identity, which is exact on ASCII input; all concrete inputs used in the
theorems below are ASCII.
-/

set_option maxHeartbeats 1000000
set_option linter.unusedVariables false
set_option linter.unnecessarySeqFocus false

namespace WeddingPhotoQr

/-- JavaScript strings, modelled as lists of characters. -/
abbrev JStr := List Char

/-- Helper turning a Lean string literal into the character-list model. -/
def jstr (s : String) : JStr := s.data

/-- JavaScript `a || b` on two strings: `b` when `a` is the empty (falsy) string. -/
def jsOr (a b : JStr) : JStr := if a = [] then b else a

/-- JavaScript `a || b` where `a` may be `undefined`/`null` (modelled `none`). -/
def jsOrU (a : Option JStr) (b : JStr) : JStr :=
  match a with
  | none => b
  | some s => if s = [] then b else s

/-- The final path component: Node's right-to-left scan first skips trailing
forward slashes, then collects characters up to the next slash. -/
def lastComponent (l : JStr) : JStr :=
  ((l.reverse.dropWhile (fun c => c = '/')).takeWhile (fun c => c ≠ '/')).reverse

/-- Node posix `path.basename` (one-argument form): the last path component. -/
def basename (l : JStr) : JStr := lastComponent l

/-- Node posix `path.extname`, ported from its scanning loop: split the last
component at its final dot; no dot, a dot in leading position, or a component
equal to `..` give the empty extension. -/
def extname (l : JStr) : JStr :=
  let comp := lastComponent l
  let r := comp.reverse
  let afterRev := r.takeWhile (fun c => c ≠ '.')
  if afterRev.length = r.length then []
  else
    let front := (r.drop (afterRev.length + 1)).reverse
    if front = [] then []
    else if front = ['.'] ∧ afterRev = [] then []
    else '.' :: afterRev.reverse

/-- The decimal digit character for digit `d`. -/
def digitChar (d : Nat) : Char := Char.ofNat (48 + d)

/-- Fuel-driven digit extraction; the fuel only forces structural recursion
and is given large enough everywhere. -/
def natToDecimalAux : Nat → Nat → JStr
  | 0, _ => []
  | fuel + 1, n =>
    if n < 10 then [digitChar n]
    else natToDecimalAux fuel (n / 10) ++ [digitChar (n % 10)]

/-- Decimal representation of a natural number, as JavaScript `String(n)`
produces it for the values used here. -/
def natToDecimal (n : Nat) : JStr := natToDecimalAux (n + 1) n

/-- JavaScript `padStart(3, "0")`: left-pad with zeros up to length three. -/
def padStart3 (s : JStr) : JStr :=
  if s.length ≥ 3 then s else List.replicate (3 - s.length) '0' ++ s

/-- Value of a digit string, used to invert `natToDecimal`. -/
def digitsVal (l : JStr) : Nat := l.foldl (fun a c => a * 10 + (c.toNat - 48)) 0

/-- Source `getExtensionFromMime`: the fixed content-type-to-extension lookup
table, empty extension by default. -/
def getExtensionFromMime (mimeType : JStr) : JStr :=
  if mimeType = jstr "image/jpeg" then jstr ".jpg"
  else if mimeType = jstr "image/png" then jstr ".png"
  else if mimeType = jstr "image/webp" then jstr ".webp"
  else if mimeType = jstr "image/heic" then jstr ".heic"
  else if mimeType = jstr "image/heif" then jstr ".heif"
  else if mimeType = jstr "image/gif" then jstr ".gif"
  else if mimeType = jstr "video/mp4" then jstr ".mp4"
  else if mimeType = jstr "video/quicktime" then jstr ".mov"
  else if mimeType = jstr "video/webm" then jstr ".webm"
  else []

/-- Membership in the sanitizer's character class `[a-zA-Z0-9._-]`. -/
def isSafeChar (c : Char) : Bool :=
  (97 ≤ c.toNat && c.toNat ≤ 122) || (65 ≤ c.toNat && c.toNat ≤ 90) ||
    (48 ≤ c.toNat && c.toNat ≤ 57) || c == '.' || c == '_' || c == '-'

/-- The regex replacement of maximal runs of characters outside `[a-zA-Z0-9._-]`
by one dash; the Bool records whether the scan is inside such a run. -/
def replaceUnsafeRuns : Bool → JStr → JStr
  | _, [] => []
  | inRun, c :: rest =>
    if isSafeChar c then c :: replaceUnsafeRuns false rest
    else if inRun then replaceUnsafeRuns true rest
    else '-' :: replaceUnsafeRuns true rest

/-- The regex replacement of dash runs by one dash. -/
def collapseDashes : Bool → JStr → JStr
  | _, [] => []
  | inRun, c :: rest =>
    if c = '-' then
      if inRun then collapseDashes true rest else '-' :: collapseDashes true rest
    else c :: collapseDashes false rest

/-- First half of the regex replacement `^-|-$` → empty: the one leading dash
the `^-` alternative can match is removed. -/
def dropLeadDash (l : JStr) : JStr := if l.head? = some '-' then l.tail else l

/-- Second half of the regex replacement `^-|-$` → empty: the one trailing
dash the `-$` alternative can match is removed. -/
def dropTrailDash (l : JStr) : JStr := if l.getLast? = some '-' then l.dropLast else l

/-- The regex replacement `^-|-$` → empty: one leading and one trailing dash
are removed. -/
def trimEdgeDashes (l : JStr) : JStr := dropTrailDash (dropLeadDash l)

/-- The strip of non-ASCII characters (`[^\x00-\x7F]` removal, composed with
NFKD normalization, which is the identity on the ASCII characters that
survive the strip). -/
def stripNonAscii (l : JStr) : JStr := l.filter (fun c => c.toNat ≤ 127)

/-- The sanitizer chain of `sanitizeArchiveName` before the 80-character
truncation: strip non-ASCII, replace unsafe runs, collapse dash runs, trim
one leading and one trailing dash. -/
def sanitizePre (value : JStr) : JStr :=
  trimEdgeDashes (collapseDashes false (replaceUnsafeRuns false (stripNonAscii value)))

/-- The sanitizer chain of `sanitizeArchiveName` including `slice(0, 80)`. -/
def sanitizeCore (value : JStr) : JStr := (sanitizePre value).take 80

/-- Source `sanitizeArchiveName` on a string argument: the sanitizer chain,
with the fixed placeholder `"arsiv"` when the result is empty. -/
def sanitizeArchiveName (value : JStr) : JStr := jsOr (sanitizeCore value) (jstr "arsiv")

/-- Source `sanitizeArchiveName` including the `typeof value !== "string"`
guard; `none` models a non-string argument. -/
def sanitizeArchiveNameAny : Option JStr → JStr
  | none => jstr "arsiv"
  | some v => sanitizeArchiveName v

/-- An upload metadata record as the handler builds it and as `db.json` stores
it.  `storagePath` is optional because legacy rows may lack it; rows written
by this code always set it and leave the legacy `storedName` unset. -/
structure UploadRecord where
  id : JStr
  eventId : JStr
  guestName : JStr
  originalName : JStr
  storagePath : Option JStr
  storedName : Option JStr
  mimeType : JStr
  size : Nat
  uploadedAt : JStr
deriving Repr, DecidableEq

/-- Source `buildArchiveEntryName`: zero-padded one-based index, a dash, the
sanitized original name (the basename of the storage path when the original
name is empty), and a fallback extension from the storage path or the mime
table when the sanitized name has none. -/
def buildArchiveEntryName (upload : UploadRecord) (index : Nat) : JStr :=
  let pfx := padStart3 (natToDecimal (index + 1))
  let originalName := jsOr upload.originalName (basename (jsOrU upload.storagePath []))
  let safeName := sanitizeArchiveName originalName
  if extname safeName ≠ [] then pfx ++ '-' :: safeName
  else
    let fallbackExt := jsOr (extname (jsOrU upload.storagePath [])) (getExtensionFromMime upload.mimeType)
    pfx ++ '-' :: (safeName ++ fallbackExt)

/-- The archive entry name exactly as the specification sentence of claim C4
describes it: the decimal of `index + 1` zero-padded to at least three digits,
a dash, the sanitized original filename, then, when the sanitized name has no
extension, an extension taken first from the storage key and otherwise from
the content-type table. -/
def specEntryName (upload : UploadRecord) (index : Nat) : JStr :=
  let pfx := padStart3 (natToDecimal (index + 1))
  let safeName := sanitizeArchiveName upload.originalName
  let ext :=
    if extname safeName ≠ [] then []
    else if extname (jsOrU upload.storagePath []) ≠ [] then extname (jsOrU upload.storagePath [])
    else getExtensionFromMime upload.mimeType
  pfx ++ '-' :: (safeName ++ ext)

/-- An event row of the metadata store. -/
structure EventRec where
  id : JStr
  eventName : JStr
  eventDate : JStr
  ownerName : JStr
  adminToken : JStr
  createdAt : JStr
deriving Repr, DecidableEq

/-- The local metadata document `data/db.json`. -/
structure LocalDb where
  events : List EventRec
  uploads : List UploadRecord
deriving Repr, DecidableEq

/-- The empty database the local bootstrap and fallback paths write. -/
def emptyLocalDb : LocalDb := { events := [], uploads := [] }

/-- The observable content of the `db.json` file: a well-formed document, or
one of the failure shapes `readLocalDb` recovers from. -/
inductive LocalDbFile where
  | missing
  | unparsable
  | badShape
  | wellFormed (db : LocalDb)
deriving Repr, DecidableEq

/-- Whether the file content is one of the shapes `readLocalDb` treats as broken. -/
def isBrokenDbFile : LocalDbFile → Bool
  | .wellFormed _ => false
  | _ => true

/-- Source `readLocalDb`: a well-formed document is returned with the file
untouched; a missing, unparsable or wrongly shaped file is silently replaced
by the empty database, which is also written back (the returned pair is the
parsed value and the file state after the call). -/
def readLocalDb : LocalDbFile → LocalDb × LocalDbFile
  | .wellFormed db => (db, .wellFormed db)
  | _ => (emptyLocalDb, .wellFormed emptyLocalDb)

/-- Source `insertUploadRecords`, local branch: append all records to the
uploads array (no-op on the empty batch). -/
def insertUploadRecordsLocal (db : LocalDb) (records : List UploadRecord) : LocalDb :=
  if records = [] then db else { db with uploads := db.uploads ++ records }

/-- Boolean lexicographic order on character lists, standing in for the
`localeCompare`-based comparator (its exact collation is irrelevant to the
claims, which only use lengths and membership of the sorted output). -/
def jstrLeB : JStr → JStr → Bool
  | [], _ => true
  | _ :: _, [] => false
  | a :: as, b :: bs => if a = b then jstrLeB as bs else decide (a < b)

/-- Source `listUploadsForEvent`, local branch: filter by event, default the
storage path from the legacy `storedName` field or the empty string, sort by
upload time, newest first. -/
def listUploadsForEventLocal (db : LocalDb) (eventId : JStr) : List UploadRecord :=
  ((db.uploads.filter (fun item => item.eventId = eventId)).map
    (fun item => { item with storagePath := some (jsOrU item.storagePath (jsOrU item.storedName [])) })).mergeSort
    (fun a b => jstrLeB b.uploadedAt a.uploadedAt)

/-- Source `findEventById`, local branch: first event with the id, read from
the database document. -/
def findEventByIdLocal (db : LocalDb) (eventId : JStr) : Option EventRec :=
  db.events.find? (fun e => e.id == eventId)

/-- An uploads-table row of the supabase metadata store, in the snake-case
shape `insertUploadRecords` sends. -/
structure SupaUploadRow where
  id : JStr
  event_id : JStr
  guest_name : Option JStr
  original_name : JStr
  storage_path : JStr
  mime_type : JStr
  size : Nat
  uploaded_at : JStr
deriving Repr, DecidableEq

/-- Source `insertUploadRecords`, supabase branch, payload mapping: camel-case
record to snake-case row, empty guest name to SQL null. -/
def uploadRecordToRow (item : UploadRecord) : SupaUploadRow :=
  { id := item.id
    event_id := item.eventId
    guest_name := if item.guestName = [] then none else some item.guestName
    original_name := item.originalName
    storage_path := jsOrU item.storagePath []
    mime_type := item.mimeType
    size := item.size
    uploaded_at := item.uploadedAt }

/-- Source `listUploadsForEvent`, supabase branch: rows of the event ordered
by upload time descending, mapped back to camel-case records. -/
def listUploadsForEventSupabase (table : List SupaUploadRow) (eventId : JStr) : List UploadRecord :=
  ((table.filter (fun item => item.event_id = eventId)).mergeSort
    (fun a b => jstrLeB b.uploaded_at a.uploaded_at)).map
    (fun item =>
      { id := item.id
        eventId := item.event_id
        guestName := jsOrU item.guest_name []
        originalName := item.original_name
        storagePath := some item.storage_path
        storedName := none
        mimeType := item.mime_type
        size := item.size
        uploadedAt := item.uploaded_at })

/-- One file of an upload request as the multer middleware presents it. -/
structure UploadFile where
  originalname : JStr
  mimetype : JStr
  size : Nat
deriving Repr, DecidableEq

/-- Whether `small` is an initial segment of `big`. -/
def beginsWith : JStr → JStr → Bool
  | [], _ => true
  | _ :: _, [] => false
  | a :: as, b :: bs => a == b && beginsWith as bs

/-- Source `fileFilter`: accept exactly the image and video media types. -/
def fileFilterValid (file : UploadFile) : Bool :=
  beginsWith (jstr "image/") file.mimetype || beginsWith (jstr "video/") file.mimetype

/-- Outcome of the multer array middleware over a whole batch, modelled from
the library contract used by the source: a count or size limit violation or a
`fileFilter` rejection of any file aborts the request with an error, and the
library removes any files it had already stored, so a rejected batch leaves
no stored object behind. -/
def multerAccept (maxFiles maxSizeBytes : Nat) (files : List UploadFile) :
    Except JStr (List UploadFile) :=
  if files.length > maxFiles then .error (jstr "LIMIT_FILE_COUNT")
  else if files.any (fun f => f.size > maxSizeBytes) then .error (jstr "LIMIT_FILE_SIZE")
  else if files.all fileFilterValid then .ok files
  else .error (jstr "Sadece foto veya video yuklenebilir.")

/-- The record the local handler builds for one stored file. -/
def mkLocalRecord (eventId guestName uploadedAt recId fileName : JStr) (file : UploadFile) :
    UploadRecord :=
  { id := recId
    eventId := eventId
    guestName := guestName
    originalName := file.originalname
    storagePath := some fileName
    storedName := none
    mimeType := file.mimetype
    size := file.size
    uploadedAt := uploadedAt }

/-- Everything observable after the local upload endpoint ran: HTTP status,
response payload, the metadata document, the batch files on disk, and the
storage removals the handler invoked. -/
structure LocalUploadOutcome where
  status : Nat
  errorMsg : Option JStr
  uploadedCount : Option Nat
  db : LocalDb
  filesOnDisk : List JStr
  removeInvoked : List JStr
deriving Repr, DecidableEq

/-- Source `POST /api/e/:eventId/upload`, local branch, after the event was
found.  `genName i` and `genId i` model the multer disk filename and the
record UUID generated for file `i`; `commitErr` models whether the metadata
write inside `insertUploadRecords` throws, and with which message.  The disk
writes happen in the middleware, so on commit failure the batch files stay on
disk and no removal is invoked (the catch block compensates only when
`USING_SUPABASE` holds). -/
def localUploadEndpoint (db : LocalDb) (eventId guestName uploadedAt : JStr)
    (files : List UploadFile) (genName genId : Nat → JStr)
    (maxFiles maxSize : Nat) (commitErr : Option JStr) : LocalUploadOutcome :=
  match multerAccept maxFiles maxSize files with
  | .error e => ⟨400, some e, none, db, [], []⟩
  | .ok fs =>
    if fs.length = 0 then ⟨400, some (jstr "En az bir dosya secmelisin."), none, db, [], []⟩
    else
      let written := (List.range fs.length).map genName
      let records := (List.range fs.length).zip fs |>.map
        (fun p => mkLocalRecord eventId guestName uploadedAt (genId p.1) (genName p.1) p.2)
      match commitErr with
      | none => ⟨201, none, some fs.length, insertUploadRecordsLocal db records, written, []⟩
      | some e => ⟨500, some e, none, db, written, []⟩

/-- The supabase-side world state: the storage bucket's object paths and the
uploads table rows. -/
structure SupaState where
  bucket : List JStr
  table : List SupaUploadRow
deriving Repr, DecidableEq

/-- Everything observable after the supabase upload endpoint ran. -/
structure SupaUploadOutcome where
  status : Nat
  errorMsg : Option JStr
  uploadedCount : Option Nat
  state : SupaState
  removeInvoked : List JStr
deriving Repr, DecidableEq

/-- The first index below `n` at which the storage upload fails, with its
error message. -/
def firstUploadError (uploadErr : Nat → Option JStr) (n : Nat) : Option (Nat × JStr) :=
  (List.range n).findSome? (fun i => (uploadErr i).map (fun e => (i, e)))

/-- Bucket content after the compensating `remove` calls of the catch block:
each created path is removed when its removal succeeds; removal failures are
swallowed (`Promise.allSettled`) and leave the object behind. -/
def bucketAfterCompensation (bucket created : List JStr) (removeOk : JStr → Bool) : List JStr :=
  bucket.filter (fun p => !(decide (p ∈ created) && removeOk p))

/-- Source `POST /api/e/:eventId/upload`, supabase branch, after the event was
found.  `genPath i` and `genId i` model the generated storage path and record
UUID of file `i`; `uploadErr i` models a storage upload failure at file `i`,
`commitErr` a failure of the table insert, and `removeOk` whether a
compensating removal succeeds.  Uploads run one file at a time; the first
failure (upload or commit) reaches the catch block, which removes every path
created so far and answers 500 with the original error message. -/
def supabaseUploadEndpoint (st : SupaState) (eventId guestName uploadedAt : JStr)
    (files : List UploadFile) (genPath genId : Nat → JStr)
    (maxFiles maxSize : Nat) (uploadErr : Nat → Option JStr) (commitErr : Option JStr)
    (removeOk : JStr → Bool) : SupaUploadOutcome :=
  match multerAccept maxFiles maxSize files with
  | .error e => ⟨400, some e, none, st, []⟩
  | .ok fs =>
    if fs.length = 0 then ⟨400, some (jstr "En az bir dosya secmelisin."), none, st, []⟩
    else
      match firstUploadError uploadErr fs.length with
      | some (i, e) =>
        let created := (List.range i).map genPath
        ⟨500, some e, none,
          { st with bucket := bucketAfterCompensation (st.bucket ++ created) created removeOk },
          created⟩
      | none =>
        let created := (List.range fs.length).map genPath
        let records := (List.range fs.length).zip fs |>.map
          (fun p => mkLocalRecord eventId guestName uploadedAt (genId p.1) (genPath p.1) p.2)
        match commitErr with
        | none =>
          ⟨201, none, some fs.length,
            { bucket := st.bucket ++ created, table := st.table ++ records.map uploadRecordToRow },
            []⟩
        | some e =>
          ⟨500, some e, none,
            { st with bucket := bucketAfterCompensation (st.bucket ++ created) created removeOk },
            created⟩

/-- Source `appendLocalUploadsToArchive` loop: entry names appended for one
event, with the original loop index kept for skipped records; `fileExists`
models `fs.existsSync` on the joined `uploads/eventId/storagePath` path. -/
def appendLocalGo (fileExists : JStr → Bool) : Nat → List UploadRecord → List JStr
  | _, [] => []
  | i, u :: rest =>
    if fileExists (u.storagePath.getD []) then
      buildArchiveEntryName u i :: appendLocalGo fileExists (i + 1) rest
    else appendLocalGo fileExists (i + 1) rest

/-- Source `appendLocalUploadsToArchive`: a record whose backing file is
missing is skipped silently and the loop continues. -/
def appendLocalUploadsToArchive (fileExists : JStr → Bool) (uploads : List UploadRecord) :
    List JStr :=
  appendLocalGo fileExists 0 uploads

/-- Source `appendSupabaseUploadsToArchive` loop: `signOk i` models whether a
signed URL for record `i` is created, `fetchOk i` whether its network fetch
answers ok; either failure throws and aborts the whole export. -/
def appendSupabaseGo (signOk fetchOk : Nat → Bool) : Nat → List UploadRecord → Except JStr (List JStr)
  | _, [] => .ok []
  | i, u :: rest =>
    if !signOk i then .error (jstr "Supabase dosya URL olusturma hatasi.")
    else if !fetchOk i then .error (jstr "Supabase dosya indirme hatasi: " ++ u.originalName)
    else (appendSupabaseGo signOk fetchOk (i + 1) rest).map (buildArchiveEntryName u i :: ·)

/-- Source `appendSupabaseUploadsToArchive`: entry names of the whole list, or
the error of the first record whose signed URL or fetch fails. -/
def appendSupabaseUploadsToArchive (signOk fetchOk : Nat → Bool) (uploads : List UploadRecord) :
    Except JStr (List JStr) :=
  appendSupabaseGo signOk fetchOk 0 uploads

/-- Source local multer `filename` callback: the stored name is the current
time, a dash, a random UUID, and the original name's extension. -/
def localStorageFilename (now : Nat) (uuid originalname : JStr) : JStr :=
  natToDecimal now ++ '-' :: (uuid ++ extname originalname)

/-- Source supabase storage path: `eventId/now-uuid.ext`. -/
def supabaseStoragePath (eventId : JStr) (now : Nat) (uuid originalname : JStr) : JStr :=
  eventId ++ '/' :: (natToDecimal now ++ '-' :: (uuid ++ extname originalname))

/-- A string that is safe as a single path or key segment: non-empty, not a
dot segment, and free of the separator. -/
def safeSegment (l : JStr) : Prop :=
  l ≠ [] ∧ l ≠ jstr "." ∧ l ≠ jstr ".." ∧ '/' ∉ l

instance (l : JStr) : Decidable (safeSegment l) := by
  unfold safeSegment; infer_instance

/-- Checks `sanitizePre` output shape: true when no two adjacent dashes occur. -/
def noDoubleDash : JStr → Bool
  | [] => true
  | [_] => true
  | a :: b :: rest => !(a == '-' && b == '-') && noDoubleDash (b :: rest)

/-! Concrete values used by witnesses and counterexamples below. -/

/-- Record used by the concrete witnesses below: a typical image upload. -/
def photoRecord : UploadRecord :=
  { id := jstr "id1"
    eventId := jstr "ev1"
    guestName := jstr "g"
    originalName := jstr "photo.jpg"
    storagePath := some (jstr "1700000000000-aaaa.jpg")
    storedName := none
    mimeType := jstr "image/jpeg"
    size := 5
    uploadedAt := jstr "2024-01-01T00:00:00.000Z" }

/-- A legacy upload row lacking `storagePath`, with the pre-rename
`storedName` field set. -/
def legacyUpload : UploadRecord :=
  { id := jstr "id0"
    eventId := jstr "ev1"
    guestName := []
    originalName := jstr "old.jpg"
    storagePath := none
    storedName := some (jstr "old.jpg")
    mimeType := jstr "image/jpeg"
    size := 3
    uploadedAt := jstr "2023-01-01T00:00:00.000Z" }

/-- A one-row database containing only the legacy upload. -/
def legacyDb : LocalDb := { events := [], uploads := [legacyUpload] }

/-- A second record whose backing local file will be taken as missing. -/
def lostRecord : UploadRecord :=
  { id := jstr "id2"
    eventId := jstr "ev1"
    guestName := []
    originalName := jstr "lost.jpg"
    storagePath := some (jstr "gone.jpg")
    storedName := none
    mimeType := jstr "image/jpeg"
    size := 4
    uploadedAt := jstr "2024-01-02T00:00:00.000Z" }

/-- A record with an empty original filename, as a multipart part with an
empty filename header produces. -/
def emptyNameRecord : UploadRecord :=
  { id := jstr "id3"
    eventId := jstr "ev1"
    guestName := []
    originalName := []
    storagePath := some (jstr "x.png")
    storedName := none
    mimeType := jstr "image/png"
    size := 1
    uploadedAt := jstr "t" }

/-- A well-typed image upload file. -/
def validPhotoFile : UploadFile :=
  { originalname := jstr "photo.jpg", mimetype := jstr "image/jpeg", size := 5 }

/-- A file whose declared content type is neither image nor video. -/
def pdfFile : UploadFile :=
  { originalname := jstr "doc.pdf", mimetype := jstr "application/pdf", size := 3 }

/-- An 81-character ASCII filename whose sanitized form hits the truncation
edge: 79 letters, one character outside the safe class, one letter. -/
def longInput : JStr := List.replicate 79 'a' ++ [ '!', 'b']

/-! Lemmas about the decimal representation and the padded index of archive
entry names. -/

theorem natToDecimalAux_irrel :
    ∀ fuel1 : Nat, ∀ fuel2 n : Nat, n < fuel1 → n < fuel2 →
      natToDecimalAux fuel1 n = natToDecimalAux fuel2 n := by
  intro fuel1
  induction fuel1 with
  | zero => intro fuel2 n h1 _; omega
  | succ f ih =>
    intro fuel2 n h1 h2
    cases fuel2 with
    | zero => omega
    | succ g =>
      show natToDecimalAux (f + 1) n = natToDecimalAux (g + 1) n
      unfold natToDecimalAux
      by_cases h : n < 10
      · simp [h]
      · have hd : n / 10 < n := Nat.div_lt_self (by omega) (by omega)
        simp only [h, if_false]
        rw [ih g (n / 10) (by omega) (by omega)]

theorem natToDecimal_unfold (n : Nat) :
    natToDecimal n =
      if n < 10 then [digitChar n] else natToDecimal (n / 10) ++ [digitChar (n % 10)] := by
  show natToDecimalAux (n + 1) n = _
  unfold natToDecimalAux
  by_cases h : n < 10
  · simp [h]
  · have hd : n / 10 < n := Nat.div_lt_self (by omega) (by omega)
    simp only [h, if_false]
    rw [natToDecimalAux_irrel n (n / 10 + 1) (n / 10) (by omega) (by omega)]
    rfl

theorem digitChar_toNat (d : Nat) (h : d < 10) : (digitChar d).toNat = 48 + d := by
  interval_cases d <;> rfl

theorem natToDecimal_digits (n : Nat) :
    ∀ c ∈ natToDecimal n, 48 ≤ c.toNat ∧ c.toNat ≤ 57 := by
  induction n using Nat.strong_induction_on with
  | _ n ih =>
    intro c hc
    rw [natToDecimal_unfold] at hc
    by_cases h : n < 10
    · simp [h] at hc
      subst hc
      rw [digitChar_toNat n h]
      omega
    · simp only [h, if_false, List.mem_append, List.mem_singleton] at hc
      rcases hc with hc | hc
      · exact ih (n / 10) (Nat.div_lt_self (by omega) (by omega)) c hc
      · subst hc
        rw [digitChar_toNat (n % 10) (Nat.mod_lt n (by omega))]
        omega

theorem natToDecimal_ne_nil (n : Nat) : natToDecimal n ≠ [] := by
  rw [natToDecimal_unfold]
  by_cases h : n < 10 <;> simp [h]

theorem digitsVal_cons (c : Char) (l : JStr) :
    digitsVal (c :: l) = l.foldl (fun a d => a * 10 + (d.toNat - 48)) (c.toNat - 48) := by
  simp [digitsVal]

theorem digitsVal_append_digit (l : JStr) (c : Char) :
    digitsVal (l ++ [c]) = digitsVal l * 10 + (c.toNat - 48) := by
  simp [digitsVal, List.foldl_append]

theorem digitsVal_natToDecimal (n : Nat) : digitsVal (natToDecimal n) = n := by
  induction n using Nat.strong_induction_on with
  | _ n ih =>
    rw [natToDecimal_unfold]
    by_cases h : n < 10
    · simp only [h, if_true]
      show digitsVal [digitChar n] = n
      simp [digitsVal, digitChar_toNat n h]
    · simp only [h, if_false]
      rw [digitsVal_append_digit]
      rw [ih (n / 10) (Nat.div_lt_self (by omega) (by omega))]
      rw [digitChar_toNat (n % 10) (Nat.mod_lt n (by omega))]
      omega

theorem digitsVal_replicate_zero (k : Nat) (l : JStr) :
    digitsVal (List.replicate k '0' ++ l) = digitsVal l := by
  induction k with
  | zero => simp
  | succ k ih =>
    rw [List.replicate_succ, List.cons_append, digitsVal_cons]
    show (List.replicate k '0' ++ l).foldl (fun a d => a * 10 + (d.toNat - 48)) 0 = digitsVal l
    exact ih

theorem digitsVal_padStart3 (l : JStr) : digitsVal (padStart3 l) = digitsVal l := by
  unfold padStart3
  by_cases h : l.length ≥ 3
  · simp [h]
  · simp only [h, if_false]
    exact digitsVal_replicate_zero _ _

theorem padded_index_inj (a b : Nat)
    (h : padStart3 (natToDecimal a) = padStart3 (natToDecimal b)) : a = b := by
  have := congrArg digitsVal h
  rwa [digitsVal_padStart3, digitsVal_padStart3, digitsVal_natToDecimal,
    digitsVal_natToDecimal] at this

theorem padded_index_no_dash (n : Nat) :
    ∀ c ∈ padStart3 (natToDecimal n), c ≠ '-' := by
  intro c hc
  unfold padStart3 at hc
  by_cases h : (natToDecimal n).length ≥ 3
  · simp only [h, if_true] at hc
    have := natToDecimal_digits n c hc
    intro he
    subst he
    simp at this
  · simp only [h, if_false, List.mem_append] at hc
    rcases hc with hc | hc
    · rw [List.mem_replicate] at hc
      obtain ⟨-, hc2⟩ := hc
      subst hc2
      decide
    · have := natToDecimal_digits n c hc
      intro he
      subst he
      simp at this

theorem append_dash_inj :
    ∀ a b t u : JStr, (∀ c ∈ a, c ≠ '-') → (∀ c ∈ b, c ≠ '-') →
      a ++ '-' :: t = b ++ '-' :: u → a = b ∧ t = u := by
  intro a
  induction a with
  | nil =>
    intro b t u _ hb h
    cases b with
    | nil => simpa using h
    | cons d bs =>
      simp only [List.nil_append, List.cons_append, List.cons.injEq] at h
      exact absurd h.1.symm (hb d (List.mem_cons_self d bs))
  | cons c as ih =>
    intro b t u ha hb h
    cases b with
    | nil =>
      simp only [List.nil_append, List.cons_append, List.cons.injEq] at h
      exact absurd h.1 (ha c (List.mem_cons_self c as))
    | cons d bs =>
      simp only [List.cons_append, List.cons.injEq] at h
      obtain ⟨hcd, hrest⟩ := h
      have := ih bs t u (fun x hx => ha x (List.mem_cons_of_mem c hx))
        (fun x hx => hb x (List.mem_cons_of_mem d hx)) hrest
      exact ⟨by rw [hcd, this.1], this.2⟩

theorem buildArchiveEntryName_shape (u : UploadRecord) (i : Nat) :
    ∃ rest, buildArchiveEntryName u i = padStart3 (natToDecimal (i + 1)) ++ '-' :: rest := by
  simp only [buildArchiveEntryName]
  split
  · exact ⟨_, rfl⟩
  · exact ⟨_, rfl⟩

/-- C5: for every list of upload records, also with duplicate original
filenames, the archive entry names produced for two distinct indices of one
export differ, because the zero-padded decimal index before the first dash is
injective. -/
theorem entry_names_pairwise_distinct (uploads : List UploadRecord) (i j : Nat)
    (hi : i < uploads.length) (hj : j < uploads.length) (hne : i ≠ j) :
    buildArchiveEntryName (uploads.get ⟨i, hi⟩) i ≠
      buildArchiveEntryName (uploads.get ⟨j, hj⟩) j := by
  obtain ⟨r1, e1⟩ := buildArchiveEntryName_shape (uploads.get ⟨i, hi⟩) i
  obtain ⟨r2, e2⟩ := buildArchiveEntryName_shape (uploads.get ⟨j, hj⟩) j
  intro h
  rw [e1, e2] at h
  obtain ⟨hp, -⟩ :=
    append_dash_inj _ _ _ _ (padded_index_no_dash (i + 1)) (padded_index_no_dash (j + 1)) h
  have := padded_index_inj (i + 1) (j + 1) hp
  omega


/-- Witness for C5: two records with the same original filename still get the
distinct entry names `001-photo.jpg` and `002-photo.jpg`. -/
theorem entry_names_pairwise_distinct_witness :
    buildArchiveEntryName photoRecord 0 ≠ buildArchiveEntryName photoRecord 1 :=
  entry_names_pairwise_distinct [photoRecord, photoRecord] 0 1 (by decide) (by decide)
    (by decide)

/-! Claims C9 and C10: the local metadata document. -/

theorem listUploads_empty (eventId : JStr) :
    listUploadsForEventLocal emptyLocalDb eventId = [] := by
  simp [listUploadsForEventLocal, emptyLocalDb]

/-- C9: in local mode, reading a missing, unparsable or wrongly shaped
database file silently yields the empty database and persists it, so all
previously stored event and upload metadata becomes unobservable — every
subsequent lookup sees the empty document — and no error reaches the caller
(`readLocalDb` returns a plain value on every input). -/
theorem broken_db_read_resets (f : LocalDbFile) (h : isBrokenDbFile f = true) :
    (readLocalDb f).1 = emptyLocalDb ∧
    (readLocalDb f).2 = LocalDbFile.wellFormed emptyLocalDb ∧
    (∀ eventId, listUploadsForEventLocal (readLocalDb f).1 eventId = []) ∧
    (∀ eventId, findEventByIdLocal (readLocalDb f).1 eventId = none) ∧
    readLocalDb (readLocalDb f).2 = (emptyLocalDb, LocalDbFile.wellFormed emptyLocalDb) := by
  have h1 : readLocalDb f = (emptyLocalDb, LocalDbFile.wellFormed emptyLocalDb) := by
    cases f with
    | wellFormed db => simp [isBrokenDbFile] at h
    | missing => rfl
    | unparsable => rfl
    | badShape => rfl
  rw [h1]
  exact ⟨rfl, rfl, fun e => listUploads_empty e, fun e => rfl, rfl⟩

/-- Witness for C9 at a concrete broken file state. -/
theorem broken_db_read_resets_witness :
    isBrokenDbFile LocalDbFile.unparsable = true ∧
    (readLocalDb LocalDbFile.unparsable).1 = emptyLocalDb ∧
    (readLocalDb LocalDbFile.unparsable).2 = LocalDbFile.wellFormed emptyLocalDb :=
  ⟨by decide, (broken_db_read_resets LocalDbFile.unparsable (by decide)).1,
    (broken_db_read_resets LocalDbFile.unparsable (by decide)).2.1⟩

/-- C10: every record listed by the local `listUploadsForEvent` carries a
present (string) storage path: the stored one when non-empty, else the legacy
`storedName` when non-empty, else the empty string. -/
theorem listUploads_storagePath_defaulted (db : LocalDb) (eventId : JStr) (r : UploadRecord)
    (hr : r ∈ listUploadsForEventLocal db eventId) :
    ∃ orig ∈ db.uploads, orig.eventId = eventId ∧
      r = { orig with storagePath := some (jsOrU orig.storagePath (jsOrU orig.storedName [])) } ∧
      r.storagePath ≠ none ∧
      (∀ s, orig.storagePath = some s → s ≠ [] → r.storagePath = some s) ∧
      (jsOrU orig.storagePath [] = [] → ∀ t, orig.storedName = some t → t ≠ [] →
        r.storagePath = some t) ∧
      (jsOrU orig.storagePath [] = [] → jsOrU orig.storedName [] = [] →
        r.storagePath = some []) := by
  unfold listUploadsForEventLocal at hr
  rw [List.mem_mergeSort, List.mem_map] at hr
  obtain ⟨orig, ho, hmap⟩ := hr
  rw [List.mem_filter] at ho
  subst hmap
  refine ⟨orig, ho.1, by simpa using ho.2, rfl, by simp, ?_, ?_, ?_⟩
  · intro s hs hne
    simp [hs, jsOrU, hne]
  · intro h1 t ht hne
    cases hsp : orig.storagePath with
    | none => simp [jsOrU, ht, hne]
    | some s =>
      rw [hsp] at h1
      simp only [jsOrU] at h1
      by_cases hse : s = []
      · simp [jsOrU, hsp, hse, ht, hne]
      · simp [hse] at h1
  · intro h1 h2
    cases hsp : orig.storagePath with
    | none =>
      cases hsn : orig.storedName with
      | none => simp [jsOrU]
      | some t =>
        rw [hsn] at h2
        simp only [jsOrU] at h2
        by_cases hte : t = []
        · simp [jsOrU, hte]
        · simp [hte] at h2
    | some s =>
      rw [hsp] at h1
      simp only [jsOrU] at h1
      by_cases hse : s = []
      · cases hsn : orig.storedName with
        | none => simp [jsOrU, hsp, hse]
        | some t =>
          rw [hsn] at h2
          simp only [jsOrU] at h2
          by_cases hte : t = []
          · simp [jsOrU, hsp, hse, hte]
          · simp [hte] at h2
      · simp [hse] at h1



/-- Witness for C10: the legacy row is listed with its storage path defaulted
from `storedName`. -/
theorem listUploads_storagePath_defaulted_witness :
    ∃ orig ∈ legacyDb.uploads, orig.eventId = jstr "ev1" ∧
      { legacyUpload with storagePath := some (jstr "old.jpg") } =
        { orig with
            storagePath := some (jsOrU orig.storagePath (jsOrU orig.storedName [])) } ∧
      ({ legacyUpload with storagePath := some (jstr "old.jpg") } : UploadRecord).storagePath
          ≠ none ∧
      (∀ s, orig.storagePath = some s → s ≠ [] →
        ({ legacyUpload with storagePath := some (jstr "old.jpg") } : UploadRecord).storagePath
          = some s) ∧
      (jsOrU orig.storagePath [] = [] → ∀ t, orig.storedName = some t → t ≠ [] →
        ({ legacyUpload with storagePath := some (jstr "old.jpg") } : UploadRecord).storagePath
          = some t) ∧
      (jsOrU orig.storagePath [] = [] → jsOrU orig.storedName [] = [] →
        ({ legacyUpload with storagePath := some (jstr "old.jpg") } : UploadRecord).storagePath
          = some []) :=
  listUploads_storagePath_defaulted legacyDb (jstr "ev1")
    { legacyUpload with storagePath := some (jstr "old.jpg") }
    (by simp only [listUploadsForEventLocal, List.mem_mergeSort, List.mem_map]; decide)

/-! Claim C3: archive export failure policy per backend. -/

theorem appendLocalGo_length (fileExists : JStr → Bool) :
    ∀ (us : List UploadRecord) (i : Nat),
      (appendLocalGo fileExists i us).length =
        us.length - (us.filter (fun u => !(fileExists (u.storagePath.getD [])))).length := by
  intro us
  induction us with
  | nil => intro i; rfl
  | cons u rest ih =>
    intro i
    have hle := List.length_filter_le
      (fun u => !(fileExists (u.storagePath.getD []))) rest
    cases h : fileExists (u.storagePath.getD []) with
    | true =>
      simp [appendLocalGo, h, List.filter_cons, ih (i + 1)]
      omega
    | false =>
      simp [appendLocalGo, h, List.filter_cons, ih (i + 1)]

theorem appendSupabaseGo_ok (signOk fetchOk : Nat → Bool) :
    ∀ (us : List UploadRecord) (i : Nat),
      (∀ k, k < us.length → signOk (i + k) = true ∧ fetchOk (i + k) = true) →
      ∃ names, appendSupabaseGo signOk fetchOk i us = Except.ok names ∧
        names.length = us.length := by
  intro us
  induction us with
  | nil => intro i _; exact ⟨[], rfl, rfl⟩
  | cons u rest ih =>
    intro i h
    have h0 := h 0 (by simp)
    rw [Nat.add_zero] at h0
    obtain ⟨names, hn, hl⟩ := ih (i + 1) (fun k hk => by
      have h2 := h (k + 1) (by simpa using Nat.succ_lt_succ hk)
      have e : i + (k + 1) = i + 1 + k := by omega
      rwa [e] at h2)
    refine ⟨buildArchiveEntryName u i :: names, ?_, by simp [hl]⟩
    simp [appendSupabaseGo, h0.1, h0.2, hn, Except.map]

theorem appendSupabaseGo_err (signOk fetchOk : Nat → Bool) :
    ∀ (us : List UploadRecord) (i k : Nat), k < us.length →
      (signOk (i + k) = false ∨ fetchOk (i + k) = false) →
      ∃ e, appendSupabaseGo signOk fetchOk i us = Except.error e := by
  intro us
  induction us with
  | nil => intro i k hk; simp at hk
  | cons u rest ih =>
    intro i k hk hf
    by_cases hs : signOk i = true
    · by_cases hfe : fetchOk i = true
      · cases k with
        | zero =>
          rw [Nat.add_zero] at hf
          rcases hf with hf | hf
          · rw [hs] at hf; cases hf
          · rw [hfe] at hf; cases hf
        | succ k =>
          obtain ⟨e, he⟩ := ih (i + 1) k (by simpa using Nat.lt_of_succ_lt_succ hk)
            (by
              have e2 : i + (k + 1) = i + 1 + k := by omega
              rwa [e2] at hf)
          refine ⟨e, ?_⟩
          simp [appendSupabaseGo, hs, hfe, he, Except.map]
      · rw [Bool.not_eq_true] at hfe
        refine ⟨jstr "Supabase dosya indirme hatasi: " ++ u.originalName, ?_⟩
        simp [appendSupabaseGo, hs, hfe]
    · rw [Bool.not_eq_true] at hs
      refine ⟨jstr "Supabase dosya URL olusturma hatasi.", ?_⟩
      simp [appendSupabaseGo, hs]

/-- C3: during export the local backend silently skips a record whose backing
file is absent and keeps the remaining entries — the exported entry count is
the record count minus the absent ones — while on the supabase backend a
whole export succeeds exactly when every signed URL and fetch succeeds, and
any failing record aborts the export with an error. -/
theorem export_failure_policy (signOk fetchOk : Nat → Bool)
    (fe : JStr → Bool) (uploads : List UploadRecord) :
    ((appendLocalUploadsToArchive fe uploads).length =
      uploads.length - (uploads.filter (fun u => !(fe (u.storagePath.getD [])))).length) ∧
    ((∀ k, k < uploads.length → signOk k = true ∧ fetchOk k = true) →
      ∃ names, appendSupabaseUploadsToArchive signOk fetchOk uploads = Except.ok names ∧
        names.length = uploads.length) ∧
    (∀ k, k < uploads.length → (signOk k = false ∨ fetchOk k = false) →
      ∃ e, appendSupabaseUploadsToArchive signOk fetchOk uploads = Except.error e) := by
  refine ⟨appendLocalGo_length fe uploads 0, ?_, ?_⟩
  · intro h
    exact appendSupabaseGo_ok signOk fetchOk uploads 0 (fun k hk => by simpa using h k hk)
  · intro k hk hf
    exact appendSupabaseGo_err signOk fetchOk uploads 0 k hk (by simpa using hf)


/-- Witness for C3: with one present and one absent file the local export has
exactly one entry, and a failing fetch aborts the supabase export. -/
theorem export_failure_policy_witness :
    (appendLocalUploadsToArchive
        (fun p => p == jstr "1700000000000-aaaa.jpg") [photoRecord, lostRecord]).length = 1 ∧
    (∃ e, appendSupabaseUploadsToArchive (fun _ => true) (fun _ => false)
        [photoRecord, lostRecord] = Except.error e) := by
  constructor
  · rw [(export_failure_policy (fun _ => true) (fun _ => false)
      (fun p => p == jstr "1700000000000-aaaa.jpg") [photoRecord, lostRecord]).1]
    decide
  · exact (export_failure_policy (fun _ => true) (fun _ => false)
      (fun p => p == jstr "1700000000000-aaaa.jpg") [photoRecord, lostRecord]).2.2 0
      (by decide) (Or.inr rfl)

/-! Claims C1, C2 and C7: the upload transaction. -/

theorem multerAccept_error_of_invalid (maxFiles maxSize : Nat) (files : List UploadFile)
    (h : ∃ f ∈ files, fileFilterValid f = false) :
    ∃ e, multerAccept maxFiles maxSize files = Except.error e := by
  have hall : files.all fileFilterValid = false := by
    obtain ⟨f, hf, hv⟩ := h
    rw [← Bool.not_eq_true, List.all_eq_true]
    intro hforall
    rw [hforall f hf] at hv
    cases hv
  unfold multerAccept
  split_ifs with h1 h2 h3
  · exact ⟨_, rfl⟩
  · exact ⟨_, rfl⟩
  · rw [h3] at hall; cases hall
  · exact ⟨_, rfl⟩

theorem multerAccept_ok (maxFiles maxSize : Nat) (files : List UploadFile)
    (h2 : files.length ≤ maxFiles) (h3 : ∀ f ∈ files, f.size ≤ maxSize)
    (h4 : ∀ f ∈ files, fileFilterValid f = true) :
    multerAccept maxFiles maxSize files = Except.ok files := by
  unfold multerAccept
  split_ifs with hc ha hb
  · omega
  · exfalso
    rw [List.any_eq_true] at ha
    obtain ⟨f, hf, hsz⟩ := ha
    have := h3 f hf
    simp at hsz
    omega
  · rfl
  · exact absurd (List.all_eq_true.mpr h4) hb

theorem findSome?_const_none {α β : Type} (l : List α) :
    l.findSome? (fun _ => (none : Option β)) = none := by
  induction l with
  | nil => rfl
  | cons a l ih => rw [List.findSome?_cons]; exact ih

theorem firstUploadError_none (n : Nat) : firstUploadError (fun _ => none) n = none := by
  unfold firstUploadError
  simp only [Option.map_none']
  exact findSome?_const_none _

/-- C2: a batch containing any file whose declared content type has neither
an image nor a video media-type lead is answered 400 on both backends before
anything is written: no disk file of the batch survives the middleware, no
bucket object is created, no removal happens, and both metadata stores are
untouched. -/
theorem invalid_type_rejects_whole_batch
    (db : LocalDb) (st : SupaState) (eventId guestName uploadedAt : JStr)
    (files : List UploadFile) (genName genId genPath : Nat → JStr)
    (maxFiles maxSize : Nat) (commitErr : Option JStr) (uploadErr : Nat → Option JStr)
    (removeOk : JStr → Bool)
    (h : ∃ f ∈ files, fileFilterValid f = false) :
    (localUploadEndpoint db eventId guestName uploadedAt files genName genId maxFiles maxSize
        commitErr).status = 400 ∧
    (localUploadEndpoint db eventId guestName uploadedAt files genName genId maxFiles maxSize
        commitErr).filesOnDisk = [] ∧
    (localUploadEndpoint db eventId guestName uploadedAt files genName genId maxFiles maxSize
        commitErr).removeInvoked = [] ∧
    (localUploadEndpoint db eventId guestName uploadedAt files genName genId maxFiles maxSize
        commitErr).db = db ∧
    (supabaseUploadEndpoint st eventId guestName uploadedAt files genPath genId maxFiles maxSize
        uploadErr commitErr removeOk).status = 400 ∧
    (supabaseUploadEndpoint st eventId guestName uploadedAt files genPath genId maxFiles maxSize
        uploadErr commitErr removeOk).state = st ∧
    (supabaseUploadEndpoint st eventId guestName uploadedAt files genPath genId maxFiles maxSize
        uploadErr commitErr removeOk).removeInvoked = [] := by
  obtain ⟨e, he⟩ := multerAccept_error_of_invalid maxFiles maxSize files h
  simp [localUploadEndpoint, supabaseUploadEndpoint, he]

/-- Witness for C2: a two-file batch whose second file is a PDF. -/
theorem invalid_type_rejects_whole_batch_witness :
    (localUploadEndpoint emptyLocalDb (jstr "ev1") [] (jstr "t") [validPhotoFile, pdfFile]
        (fun _ => jstr "n") (fun _ => jstr "i") 20 1000000 none).status = 400 ∧
    (localUploadEndpoint emptyLocalDb (jstr "ev1") [] (jstr "t") [validPhotoFile, pdfFile]
        (fun _ => jstr "n") (fun _ => jstr "i") 20 1000000 none).filesOnDisk = [] ∧
    (localUploadEndpoint emptyLocalDb (jstr "ev1") [] (jstr "t") [validPhotoFile, pdfFile]
        (fun _ => jstr "n") (fun _ => jstr "i") 20 1000000 none).removeInvoked = [] ∧
    (localUploadEndpoint emptyLocalDb (jstr "ev1") [] (jstr "t") [validPhotoFile, pdfFile]
        (fun _ => jstr "n") (fun _ => jstr "i") 20 1000000 none).db = emptyLocalDb ∧
    (supabaseUploadEndpoint ⟨[], []⟩ (jstr "ev1") [] (jstr "t") [validPhotoFile, pdfFile]
        (fun _ => jstr "p") (fun _ => jstr "i") 20 1000000 (fun _ => none) none
        (fun _ => true)).status = 400 ∧
    (supabaseUploadEndpoint ⟨[], []⟩ (jstr "ev1") [] (jstr "t") [validPhotoFile, pdfFile]
        (fun _ => jstr "p") (fun _ => jstr "i") 20 1000000 (fun _ => none) none
        (fun _ => true)).state = (⟨[], []⟩ : SupaState) ∧
    (supabaseUploadEndpoint ⟨[], []⟩ (jstr "ev1") [] (jstr "t") [validPhotoFile, pdfFile]
        (fun _ => jstr "p") (fun _ => jstr "i") 20 1000000 (fun _ => none) none
        (fun _ => true)).removeInvoked = [] :=
  invalid_type_rejects_whole_batch emptyLocalDb ⟨[], []⟩ (jstr "ev1") [] (jstr "t")
    [validPhotoFile, pdfFile] (fun _ => jstr "n") (fun _ => jstr "i") (fun _ => jstr "p")
    20 1000000 none (fun _ => none) (fun _ => true)
    ⟨pdfFile, by decide, by decide⟩

theorem mkLocalRecord_eventId (eventId guestName uploadedAt recId fileName : JStr)
    (file : UploadFile) :
    (mkLocalRecord eventId guestName uploadedAt recId fileName file).eventId = eventId := rfl

theorem batchRecords_eventId (eventId guestName uploadedAt : JStr)
    (files : List UploadFile) (gen1 gen2 : Nat → JStr) :
    ∀ r ∈ ((List.range files.length).zip files).map
      (fun p => mkLocalRecord eventId guestName uploadedAt (gen1 p.1) (gen2 p.1) p.2),
      r.eventId = eventId := by
  intro r hr
  rw [List.mem_map] at hr
  obtain ⟨p, -, hp⟩ := hr
  rw [← hp]
  rfl

theorem batchRecords_length (eventId guestName uploadedAt : JStr)
    (files : List UploadFile) (gen1 gen2 : Nat → JStr) :
    (((List.range files.length).zip files).map
      (fun p => mkLocalRecord eventId guestName uploadedAt (gen1 p.1) (gen2 p.1) p.2)).length
      = files.length := by
  simp

theorem listUploadsLocal_insert_length (db : LocalDb) (records : List UploadRecord)
    (eventId : JStr) (h : ∀ r ∈ records, r.eventId = eventId) :
    (listUploadsForEventLocal (insertUploadRecordsLocal db records) eventId).length =
      (listUploadsForEventLocal db eventId).length + records.length := by
  by_cases hr : records = []
  · subst hr
    simp [insertUploadRecordsLocal]
  · have hf : records.filter (fun item => item.eventId = eventId) = records :=
      List.filter_eq_self.mpr (fun a ha => by simp [h a ha])
    simp [insertUploadRecordsLocal, hr, listUploadsForEventLocal, List.filter_append, hf]

theorem listUploadsSupa_append_length (table : List SupaUploadRow)
    (rows : List SupaUploadRow) (eventId : JStr) (h : ∀ r ∈ rows, r.event_id = eventId) :
    (listUploadsForEventSupabase (table ++ rows) eventId).length =
      (listUploadsForEventSupabase table eventId).length + rows.length := by
  have hf : rows.filter (fun item => item.event_id = eventId) = rows :=
    List.filter_eq_self.mpr (fun a ha => by simp [h a ha])
  simp [listUploadsForEventSupabase, List.filter_append, hf]

/-- C7: a valid non-empty batch within the limits whose storage writes and
metadata commit succeed is answered 201 with an accepted count equal to the
number of files, and `listUploads` for the event afterwards holds exactly
that many new records, on both backends. -/
theorem valid_batch_commit_success
    (db : LocalDb) (st : SupaState) (eventId guestName uploadedAt : JStr)
    (files : List UploadFile) (genName genId genPath : Nat → JStr)
    (maxFiles maxSize : Nat) (removeOk : JStr → Bool)
    (h1 : 0 < files.length) (h2 : files.length ≤ maxFiles)
    (h3 : ∀ f ∈ files, f.size ≤ maxSize) (h4 : ∀ f ∈ files, fileFilterValid f = true) :
    (localUploadEndpoint db eventId guestName uploadedAt files genName genId maxFiles maxSize
        none).status = 201 ∧
    (localUploadEndpoint db eventId guestName uploadedAt files genName genId maxFiles maxSize
        none).uploadedCount = some files.length ∧
    (listUploadsForEventLocal
        (localUploadEndpoint db eventId guestName uploadedAt files genName genId maxFiles
          maxSize none).db eventId).length =
      (listUploadsForEventLocal db eventId).length + files.length ∧
    (supabaseUploadEndpoint st eventId guestName uploadedAt files genPath genId maxFiles maxSize
        (fun _ => none) none removeOk).status = 201 ∧
    (supabaseUploadEndpoint st eventId guestName uploadedAt files genPath genId maxFiles maxSize
        (fun _ => none) none removeOk).uploadedCount = some files.length ∧
    (listUploadsForEventSupabase
        (supabaseUploadEndpoint st eventId guestName uploadedAt files genPath genId maxFiles
          maxSize (fun _ => none) none removeOk).state.table eventId).length =
      (listUploadsForEventSupabase st.table eventId).length + files.length := by
  have hok := multerAccept_ok maxFiles maxSize files h2 h3 h4
  have hne : ¬(files.length = 0) := by omega
  have hfirst := firstUploadError_none files.length
  have hl : localUploadEndpoint db eventId guestName uploadedAt files genName genId maxFiles
      maxSize none =
      ⟨201, none, some files.length,
        insertUploadRecordsLocal db (((List.range files.length).zip files).map
          (fun p => mkLocalRecord eventId guestName uploadedAt (genId p.1) (genName p.1) p.2)),
        (List.range files.length).map genName, []⟩ := by
    simp [localUploadEndpoint, hok, hne]
  have hs : supabaseUploadEndpoint st eventId guestName uploadedAt files genPath genId maxFiles
      maxSize (fun _ => none) none removeOk =
      ⟨201, none, some files.length,
        { bucket := st.bucket ++ (List.range files.length).map genPath,
          table := st.table ++ (((List.range files.length).zip files).map
            (fun p => mkLocalRecord eventId guestName uploadedAt (genId p.1) (genPath p.1)
              p.2)).map uploadRecordToRow },
        []⟩ := by
    simp [supabaseUploadEndpoint, hok, hne, hfirst]
  rw [hl, hs]
  refine ⟨rfl, rfl, ?_, rfl, rfl, ?_⟩
  · rw [listUploadsLocal_insert_length db _ eventId
      (batchRecords_eventId eventId guestName uploadedAt files genId genName)]
    rw [batchRecords_length]
  · rw [listUploadsSupa_append_length st.table _ eventId ?_]
    · simp
    · intro r hr
      rw [List.mem_map] at hr
      obtain ⟨rec, hrec, hmap⟩ := hr
      rw [← hmap]
      have := batchRecords_eventId eventId guestName uploadedAt files genId genPath rec hrec
      simpa [uploadRecordToRow] using this

/-- Witness for C7: one valid photo committed on both backends. -/
theorem valid_batch_commit_success_witness :
    (localUploadEndpoint emptyLocalDb (jstr "ev1") [] (jstr "t") [validPhotoFile]
        (fun _ => jstr "n.jpg") (fun _ => jstr "i") 20 1000000 none).status = 201 ∧
    (localUploadEndpoint emptyLocalDb (jstr "ev1") [] (jstr "t") [validPhotoFile]
        (fun _ => jstr "n.jpg") (fun _ => jstr "i") 20 1000000 none).uploadedCount = some 1 :=
  have h := valid_batch_commit_success emptyLocalDb ⟨[], []⟩ (jstr "ev1") [] (jstr "t")
    [validPhotoFile] (fun _ => jstr "n.jpg") (fun _ => jstr "i") (fun _ => jstr "p.jpg")
    20 1000000 (fun _ => true) (by decide) (by decide)
    (by intro f hf; fin_cases hf <;> decide) (by intro f hf; fin_cases hf <;> decide)
  ⟨h.1, h.2.1⟩

theorem compensation_removes (bucket created : List JStr) (removeOk : JStr → Bool)
    (hall : ∀ p, removeOk p = true) (p : JStr) (hp : p ∈ created) :
    p ∉ bucketAfterCompensation bucket created removeOk := by
  intro hmem
  unfold bucketAfterCompensation at hmem
  rw [List.mem_filter] at hmem
  have h2 := hmem.2
  rw [hall p] at h2
  simp [hp] at h2

/-- C1 (amended): on the supabase backend a metadata-commit failure after the
binary uploads triggers `remove` on every storage object written for the
batch, surfaces the commit error with status 500, leaves the uploads table
unchanged, and — when the removals succeed — none of the batch objects
remains in the bucket; on the local backend the commit error is surfaced and
the database is unchanged, but no removal is invoked and the batch files all
remain on disk. -/
theorem metadata_commit_failure_compensation
    (db : LocalDb) (st : SupaState) (eventId guestName uploadedAt : JStr)
    (files : List UploadFile) (genName genId genPath : Nat → JStr)
    (maxFiles maxSize : Nat) (e : JStr) (removeOk : JStr → Bool)
    (h1 : 0 < files.length) (h2 : files.length ≤ maxFiles)
    (h3 : ∀ f ∈ files, f.size ≤ maxSize) (h4 : ∀ f ∈ files, fileFilterValid f = true) :
    (supabaseUploadEndpoint st eventId guestName uploadedAt files genPath genId maxFiles maxSize
        (fun _ => none) (some e) removeOk).status = 500 ∧
    (supabaseUploadEndpoint st eventId guestName uploadedAt files genPath genId maxFiles maxSize
        (fun _ => none) (some e) removeOk).errorMsg = some e ∧
    (supabaseUploadEndpoint st eventId guestName uploadedAt files genPath genId maxFiles maxSize
        (fun _ => none) (some e) removeOk).removeInvoked =
      (List.range files.length).map genPath ∧
    ((∀ p, removeOk p = true) → ∀ i, i < files.length →
      genPath i ∉ (supabaseUploadEndpoint st eventId guestName uploadedAt files genPath genId
        maxFiles maxSize (fun _ => none) (some e) removeOk).state.bucket) ∧
    (supabaseUploadEndpoint st eventId guestName uploadedAt files genPath genId maxFiles maxSize
        (fun _ => none) (some e) removeOk).state.table = st.table ∧
    listUploadsForEventSupabase (supabaseUploadEndpoint st eventId guestName uploadedAt files
        genPath genId maxFiles maxSize (fun _ => none) (some e) removeOk).state.table eventId =
      listUploadsForEventSupabase st.table eventId ∧
    (localUploadEndpoint db eventId guestName uploadedAt files genName genId maxFiles maxSize
        (some e)).status = 500 ∧
    (localUploadEndpoint db eventId guestName uploadedAt files genName genId maxFiles maxSize
        (some e)).errorMsg = some e ∧
    (localUploadEndpoint db eventId guestName uploadedAt files genName genId maxFiles maxSize
        (some e)).removeInvoked = [] ∧
    (localUploadEndpoint db eventId guestName uploadedAt files genName genId maxFiles maxSize
        (some e)).filesOnDisk = (List.range files.length).map genName ∧
    (localUploadEndpoint db eventId guestName uploadedAt files genName genId maxFiles maxSize
        (some e)).db = db := by
  have hok := multerAccept_ok maxFiles maxSize files h2 h3 h4
  have hne : ¬(files.length = 0) := by omega
  have hfirst := firstUploadError_none files.length
  have hs : supabaseUploadEndpoint st eventId guestName uploadedAt files genPath genId maxFiles
      maxSize (fun _ => none) (some e) removeOk =
      ⟨500, some e, none,
        { st with bucket := (bucketAfterCompensation
            (st.bucket ++ (List.range files.length).map genPath)
            ((List.range files.length).map genPath) removeOk) },
        (List.range files.length).map genPath⟩ := by
    simp [supabaseUploadEndpoint, hok, hne, hfirst]
  have hl : localUploadEndpoint db eventId guestName uploadedAt files genName genId maxFiles
      maxSize (some e) =
      ⟨500, some e, none, db, (List.range files.length).map genName, []⟩ := by
    simp [localUploadEndpoint, hok, hne]
  rw [hs, hl]
  refine ⟨rfl, rfl, rfl, ?_, rfl, rfl, rfl, rfl, rfl, rfl, rfl⟩
  intro hall i hi
  exact compensation_removes _ _ removeOk hall (genPath i)
    (List.mem_map.mpr ⟨i, List.mem_range.mpr hi, rfl⟩)

/-- Witness for C1 (amended): a single photo whose supabase commit fails is
compensated; the same failure on the local backend leaves the file on disk. -/
theorem metadata_commit_failure_compensation_witness :
    (supabaseUploadEndpoint ⟨[], []⟩ (jstr "ev1") [] (jstr "t") [validPhotoFile]
        (fun _ => jstr "ev1/p.jpg") (fun _ => jstr "i") 20 1000000 (fun _ => none)
        (some (jstr "insert hatasi")) (fun _ => true)).removeInvoked =
      [jstr "ev1/p.jpg"] ∧
    (localUploadEndpoint emptyLocalDb (jstr "ev1") [] (jstr "t") [validPhotoFile]
        (fun _ => jstr "n.jpg") (fun _ => jstr "i") 20 1000000
        (some (jstr "insert hatasi"))).removeInvoked = [] :=
  have h := metadata_commit_failure_compensation emptyLocalDb ⟨[], []⟩ (jstr "ev1") []
    (jstr "t") [validPhotoFile] (fun _ => jstr "n.jpg") (fun _ => jstr "i")
    (fun _ => jstr "ev1/p.jpg") 20 1000000 (jstr "insert hatasi") (fun _ => true)
    (by decide) (by decide) (by intro f hf; fin_cases hf <;> decide)
    (by intro f hf; fin_cases hf <;> decide)
  ⟨by rw [h.2.2.1]; rfl, h.2.2.2.2.2.2.2.2.1⟩

/-- Counterexample for C1 as stated: on the local backend a commit failure
after the disk write invokes no removal at all and the batch file remains on
disk (retrievable through the admin file route), contradicting the claim that
on either backend every written storage object is removed and none remains
retrievable. -/
theorem local_commit_failure_no_compensation :
    (localUploadEndpoint emptyLocalDb (jstr "ev1") [] (jstr "t") [validPhotoFile]
        (fun _ => jstr "171-u.jpg") (fun _ => jstr "rid") 20 1000000
        (some (jstr "disk hatasi"))).status = 500 ∧
    (localUploadEndpoint emptyLocalDb (jstr "ev1") [] (jstr "t") [validPhotoFile]
        (fun _ => jstr "171-u.jpg") (fun _ => jstr "rid") 20 1000000
        (some (jstr "disk hatasi"))).filesOnDisk = [jstr "171-u.jpg"] ∧
    (localUploadEndpoint emptyLocalDb (jstr "ev1") [] (jstr "t") [validPhotoFile]
        (fun _ => jstr "171-u.jpg") (fun _ => jstr "rid") 20 1000000
        (some (jstr "disk hatasi"))).removeInvoked = [] := by
  refine ⟨?_, ?_, ?_⟩ <;> rfl

/-! Claim C4: the archive entry name against the wording of the spec. -/

/-- Counterexample for C4 as stated: for a record whose original filename is
empty the code falls back to the basename of the storage key before
sanitizing, while the claim's rule sanitizes the empty original name into the
placeholder; the two entry names differ. -/
theorem entry_name_spec_counterexample :
    buildArchiveEntryName emptyNameRecord 0 = jstr "001-x.png" ∧
    specEntryName emptyNameRecord 0 = jstr "001-arsiv.png" ∧
    buildArchiveEntryName emptyNameRecord 0 ≠ specEntryName emptyNameRecord 0 := by
  refine ⟨by decide, by decide, by decide⟩

/-- C4 (amended): for every upload record with a non-empty original filename
the archive entry name is exactly the one the specification describes:
`i + 1` in decimal, zero-padded to at least three digits, a dash, the
sanitized original filename, and, when the sanitized name has no extension,
an extension taken first from the storage key and otherwise from the fixed
content-type table, else nothing. -/
theorem entry_name_matches_spec (u : UploadRecord) (i : Nat) (h : u.originalName ≠ []) :
    buildArchiveEntryName u i = specEntryName u i := by
  unfold buildArchiveEntryName specEntryName
  rw [show jsOr u.originalName (basename (jsOrU u.storagePath [])) = u.originalName from by
    simp [jsOr, h]]
  by_cases hx : extname (sanitizeArchiveName u.originalName) = []
  · simp only [hx, ne_eq, not_true_eq_false, if_false, ite_not]
    by_cases hsp : extname (jsOrU u.storagePath []) = []
    · simp [jsOr, hsp]
    · simp [jsOr, hsp]
  · simp [hx]

/-- Witness for C4 (amended) at a concrete record: spec rule and code agree
on `photo.jpg`, including the `video/mp4` extension fallback case. -/
theorem entry_name_matches_spec_witness :
    photoRecord.originalName ≠ [] ∧
    buildArchiveEntryName photoRecord 2 = specEntryName photoRecord 2 :=
  ⟨by decide, entry_name_matches_spec photoRecord 2 (by decide)⟩

/-! Claim C8: generated storage keys stay inside the event namespace. -/

theorem lastComponent_no_slash (l : JStr) : ∀ c ∈ lastComponent l, c ≠ '/' := by
  intro c hc
  unfold lastComponent at hc
  rw [List.mem_reverse] at hc
  have := List.mem_takeWhile_imp hc
  simpa using this

theorem extname_no_slash (l : JStr) : '/' ∉ extname l := by
  intro h
  simp only [extname] at h
  split at h
  · simp at h
  · split at h
    · simp at h
    · split at h
      · simp at h
      · rcases List.mem_cons.mp h with h1 | h1
        · cases h1
        · rw [List.mem_reverse] at h1
          have h2 := List.takeWhile_subset (fun c => c ≠ '.') h1
          rw [List.mem_reverse] at h2
          exact lastComponent_no_slash l '/' h2 rfl

theorem natToDecimal_head (n : Nat) :
    ∃ d rest, natToDecimal n = d :: rest ∧ 48 ≤ d.toNat ∧ d.toNat ≤ 57 := by
  cases hh : natToDecimal n with
  | nil => exact absurd hh (natToDecimal_ne_nil n)
  | cons d rest =>
    have := natToDecimal_digits n d (by rw [hh]; exact List.mem_cons_self d rest)
    exact ⟨d, rest, rfl, this.1, this.2⟩

/-- C8: on both backends the storage key never escapes the event's namespace,
whatever the user-controlled original filename is: the local disk filename is
a single safe path segment, the supabase key is that same safe segment under
the `eventId/` headline, and the original name influences the key only
through its extension, which cannot contain a path separator. -/
theorem storage_key_stays_in_namespace (now : Nat) (uuid origName eventId : JStr)
    (huuid : '/' ∉ uuid) :
    safeSegment (localStorageFilename now uuid origName) ∧
    '/' ∉ extname origName ∧
    supabaseStoragePath eventId now uuid origName =
      eventId ++ '/' :: localStorageFilename now uuid origName ∧
    (∀ other : JStr, extname other = extname origName →
      localStorageFilename now uuid other = localStorageFilename now uuid origName) := by
  obtain ⟨d, rest, hd, hd1, hd2⟩ := natToDecimal_head now
  refine ⟨⟨?_, ?_, ?_, ?_⟩, extname_no_slash origName, rfl, ?_⟩
  · unfold localStorageFilename
    rw [hd]
    simp
  · unfold localStorageFilename
    rw [hd]
    intro heq
    have : d = '.' := by
      have := congrArg List.head? heq
      simpa [jstr] using this
    rw [this] at hd1
    simp at hd1
  · unfold localStorageFilename
    rw [hd]
    intro heq
    have : d = '.' := by
      have := congrArg List.head? heq
      simpa [jstr] using this
    rw [this] at hd1
    simp at hd1
  · unfold localStorageFilename
    intro hmem
    rcases List.mem_append.mp hmem with h1 | h1
    · have := natToDecimal_digits now '/' h1
      simp at this
    · rcases List.mem_cons.mp h1 with h2 | h2
      · cases h2
      · rcases List.mem_append.mp h2 with h3 | h3
        · exact huuid h3
        · exact extname_no_slash origName h3
  · intro other hother
    unfold localStorageFilename
    rw [hother]

/-- Witness for C8 at a concrete timestamp, UUID and a hostile original
filename full of separators and dot segments. -/
theorem storage_key_stays_in_namespace_witness :
    '/' ∉ jstr "ab-cd" ∧
    safeSegment (localStorageFilename 1700000000000 (jstr "ab-cd") (jstr "../../evil/a.png")) ∧
    supabaseStoragePath (jstr "ev1") 1700000000000 (jstr "ab-cd") (jstr "../../evil/a.png") =
      jstr "ev1" ++ '/' ::
        localStorageFilename 1700000000000 (jstr "ab-cd") (jstr "../../evil/a.png") :=
  have h := storage_key_stays_in_namespace 1700000000000 (jstr "ab-cd")
    (jstr "../../evil/a.png") (jstr "ev1") (by decide)
  ⟨by decide, h.1, h.2.2.1⟩

/-! Claim C6: shape of the sanitizer output. -/

theorem replaceUnsafeRuns_safe :
    ∀ (l : JStr) (b : Bool), ∀ c ∈ replaceUnsafeRuns b l, isSafeChar c = true := by
  intro l
  induction l with
  | nil => intro b c hc; simp [replaceUnsafeRuns] at hc
  | cons c0 rest ih =>
    intro b c hc
    simp only [replaceUnsafeRuns] at hc
    cases hcs : isSafeChar c0 with
    | true =>
      rw [hcs] at hc
      simp only [if_true] at hc
      rcases List.mem_cons.mp hc with h | h
      · rw [h]; exact hcs
      · exact ih false c h
    | false =>
      rw [hcs] at hc
      simp only [Bool.false_eq_true, if_false] at hc
      cases b with
      | true =>
        simp only [if_true] at hc
        exact ih true c hc
      | false =>
        simp only [Bool.false_eq_true, if_false] at hc
        rcases List.mem_cons.mp hc with h | h
        · rw [h]; decide
        · exact ih true c h

theorem collapseDashes_subset :
    ∀ (l : JStr) (b : Bool), ∀ c ∈ collapseDashes b l, c ∈ l := by
  intro l
  induction l with
  | nil => intro b c hc; simp [collapseDashes] at hc
  | cons c0 rest ih =>
    intro b c hc
    simp only [collapseDashes] at hc
    by_cases hc0 : c0 = '-'
    · rw [if_pos hc0] at hc
      cases b with
      | true =>
        simp only [if_true] at hc
        exact List.mem_cons_of_mem c0 (ih true c hc)
      | false =>
        simp only [Bool.false_eq_true, if_false] at hc
        rcases List.mem_cons.mp hc with h | h
        · rw [h, hc0]; exact List.mem_cons_self _ _
        · exact List.mem_cons_of_mem c0 (ih true c h)
    · rw [if_neg hc0] at hc
      rcases List.mem_cons.mp hc with h | h
      · rw [h]; exact List.mem_cons_self c0 rest
      · exact List.mem_cons_of_mem c0 (ih false c h)

theorem collapseDashes_head :
    ∀ l : JStr, (collapseDashes true l).head? ≠ some '-' := by
  intro l
  induction l with
  | nil => simp [collapseDashes]
  | cons c0 rest ih =>
    by_cases hc0 : c0 = '-'
    · simpa [collapseDashes, hc0] using ih
    · simp [collapseDashes, hc0]

theorem noDoubleDash_cons (a : Char) (l : JStr) :
    noDoubleDash (a :: l) = true ↔
      (a = '-' → l.head? ≠ some '-') ∧ noDoubleDash l = true := by
  cases l with
  | nil => simp [noDoubleDash]
  | cons b rest =>
    show (!(a == '-' && b == '-') && noDoubleDash (b :: rest)) = true ↔ _
    rw [Bool.and_eq_true, Bool.not_eq_true', Bool.and_eq_false_iff]
    simp only [beq_eq_false_iff_ne, ne_eq, List.head?_cons, Option.some.injEq]
    tauto

theorem collapseDashes_noDD :
    ∀ (l : JStr) (b : Bool), noDoubleDash (collapseDashes b l) = true := by
  intro l
  induction l with
  | nil => intro b; rfl
  | cons c0 rest ih =>
    intro b
    simp only [collapseDashes]
    by_cases hc0 : c0 = '-'
    · rw [if_pos hc0]
      cases b with
      | true => simpa using ih true
      | false =>
        simp only [Bool.false_eq_true, if_false]
        rw [noDoubleDash_cons]
        exact ⟨fun _ => collapseDashes_head rest, ih true⟩
    · rw [if_neg hc0]
      rw [noDoubleDash_cons]
      exact ⟨fun h => absurd h hc0, ih false⟩

theorem noDoubleDash_tail (l : JStr) (h : noDoubleDash l = true) :
    noDoubleDash l.tail = true := by
  cases l with
  | nil => exact h
  | cons a rest => exact ((noDoubleDash_cons a rest).mp h).2

theorem noDoubleDash_dropLast :
    ∀ l : JStr, noDoubleDash l = true → noDoubleDash l.dropLast = true := by
  intro l
  induction l with
  | nil => intro h; exact h
  | cons a rest ih =>
    intro h
    cases rest with
    | nil => rfl
    | cons b rest2 =>
      have h2 := (noDoubleDash_cons a (b :: rest2)).mp h
      show noDoubleDash (a :: (b :: rest2).dropLast) = true
      rw [noDoubleDash_cons]
      refine ⟨?_, ih h2.2⟩
      intro ha
      cases rest2 with
      | nil => simp
      | cons c rest3 =>
        simp only [List.dropLast_cons₂, List.head?_cons, ne_eq, Option.some.injEq]
        intro hb
        exact h2.1 ha (by simp [hb])

theorem noDoubleDash_take :
    ∀ (l : JStr) (n : Nat), noDoubleDash l = true → noDoubleDash (l.take n) = true := by
  intro l
  induction l with
  | nil => intro n h; simp [h]
  | cons a rest ih =>
    intro n h
    cases n with
    | zero => rfl
    | succ m =>
      have h2 := (noDoubleDash_cons a rest).mp h
      rw [List.take_succ_cons, noDoubleDash_cons]
      refine ⟨?_, ih m h2.2⟩
      intro ha hhd
      cases rest with
      | nil => simp at hhd
      | cons b rest2 =>
        cases m with
        | zero => simp at hhd
        | succ k =>
          rw [List.take_succ_cons, List.head?_cons] at hhd
          exact h2.1 ha (by simpa using hhd)

theorem head?_take (l : JStr) (n : Nat) :
    (l.take n).head? = none ∨ (l.take n).head? = l.head? := by
  cases l with
  | nil => simp
  | cons a rest =>
    cases n with
    | zero => simp
    | succ m => simp

theorem noDoubleDash_lastTwo :
    ∀ l : JStr, noDoubleDash l = true →
      ¬(l.getLast? = some '-' ∧ l.dropLast.getLast? = some '-') := by
  intro l
  induction l with
  | nil => intro _ h; simp at h
  | cons a rest ih =>
    intro h hpair
    cases rest with
    | nil => simp at hpair
    | cons b rest2 =>
      have h2 := (noDoubleDash_cons a (b :: rest2)).mp h
      cases rest2 with
      | nil =>
        simp at hpair
        exact h2.1 hpair.2 (by simp [hpair.1])
      | cons c rest3 =>
        refine ih h2.2 ⟨?_, ?_⟩
        · rw [← List.getLast?_cons_cons (a := a)]
          exact hpair.1
        · have hd : (a :: b :: c :: rest3).dropLast = a :: (b :: c :: rest3).dropLast := by
            simp [List.dropLast_cons₂]
          rw [hd] at hpair
          have hd2 : (b :: c :: rest3).dropLast = b :: (c :: rest3).dropLast := by
            simp [List.dropLast_cons₂]
          rw [hd2] at hpair ⊢
          rw [← List.getLast?_cons_cons (a := a)]
          exact hpair.2

theorem dropLeadDash_subset (l : JStr) : ∀ c ∈ dropLeadDash l, c ∈ l := by
  intro c hc
  unfold dropLeadDash at hc
  split at hc
  · exact List.tail_subset l hc
  · exact hc

theorem dropTrailDash_subset (l : JStr) : ∀ c ∈ dropTrailDash l, c ∈ l := by
  intro c hc
  unfold dropTrailDash at hc
  split at hc
  · exact List.dropLast_subset _ hc
  · exact hc

theorem trimEdgeDashes_subset (l : JStr) : ∀ c ∈ trimEdgeDashes l, c ∈ l :=
  fun c hc => dropLeadDash_subset l c (dropTrailDash_subset _ c hc)

theorem noDoubleDash_dropLeadDash (l : JStr) (h : noDoubleDash l = true) :
    noDoubleDash (dropLeadDash l) = true := by
  unfold dropLeadDash
  split
  · exact noDoubleDash_tail l h
  · exact h

theorem noDoubleDash_dropTrailDash (l : JStr) (h : noDoubleDash l = true) :
    noDoubleDash (dropTrailDash l) = true := by
  unfold dropTrailDash
  split
  · exact noDoubleDash_dropLast _ h
  · exact h

theorem noDoubleDash_trimEdgeDashes (l : JStr) (h : noDoubleDash l = true) :
    noDoubleDash (trimEdgeDashes l) = true :=
  noDoubleDash_dropTrailDash _ (noDoubleDash_dropLeadDash l h)

theorem dropLeadDash_head (l : JStr) (h : noDoubleDash l = true) :
    (dropLeadDash l).head? ≠ some '-' := by
  unfold dropLeadDash
  split
  · rename_i hh
    cases l with
    | nil => simp at hh
    | cons a rest =>
      rw [List.head?_cons, Option.some.injEq] at hh
      exact ((noDoubleDash_cons a rest).mp h).1 hh
  · rename_i hh
    exact hh

theorem dropTrailDash_head (l : JStr) (h : l.head? ≠ some '-') :
    (dropTrailDash l).head? ≠ some '-' := by
  unfold dropTrailDash
  split
  · rw [List.head?_dropLast]
    split
    · exact h
    · simp
  · exact h

theorem trimEdgeDashes_head (l : JStr) (h : noDoubleDash l = true) :
    (trimEdgeDashes l).head? ≠ some '-' :=
  dropTrailDash_head _ (dropLeadDash_head l h)

theorem dropTrailDash_last (l : JStr) (h : noDoubleDash l = true) :
    (dropTrailDash l).getLast? ≠ some '-' := by
  unfold dropTrailDash
  split
  · rename_i hlast
    intro hdrop
    exact noDoubleDash_lastTwo _ h ⟨hlast, hdrop⟩
  · rename_i hlast
    exact hlast

theorem trimEdgeDashes_last (l : JStr) (h : noDoubleDash l = true) :
    (trimEdgeDashes l).getLast? ≠ some '-' :=
  dropTrailDash_last _ (noDoubleDash_dropLeadDash l h)

theorem sanitizeCore_safe (v : JStr) : ∀ c ∈ sanitizeCore v, isSafeChar c = true := by
  intro c hc
  unfold sanitizeCore sanitizePre at hc
  have h1 := List.take_subset 80 _ hc
  have h2 := trimEdgeDashes_subset _ c h1
  have h3 := collapseDashes_subset _ false c h2
  exact replaceUnsafeRuns_safe _ false c h3

theorem sanitizeCore_noDD (v : JStr) : noDoubleDash (sanitizeCore v) = true :=
  noDoubleDash_take _ 80
    (noDoubleDash_trimEdgeDashes _ (collapseDashes_noDD _ false))

theorem sanitizeCore_head (v : JStr) : (sanitizeCore v).head? ≠ some '-' := by
  unfold sanitizeCore
  rcases head?_take (sanitizePre v) 80 with h | h
  · rw [h]; simp
  · rw [h]
    exact trimEdgeDashes_head _ (collapseDashes_noDD _ false)

/-- Counterexample for C6 as stated: the source trims edge dashes before the
80-character truncation, so an input whose sanitized form is cut right after
a dash ends with a dash, against the claim's `no trailing dash`. -/
theorem sanitizer_trailing_dash_counterexample :
    (sanitizeArchiveName longInput).getLast? = some '-' ∧
    (sanitizeArchiveName longInput).length = 80 := by
  refine ⟨by decide, by decide⟩

/-- C6 (amended): the sanitizer always returns a non-empty string of at most
80 characters drawn from `[A-Za-z0-9._-]`, with no two adjacent dashes (runs
of disallowed characters were collapsed into one dash), no leading dash, and
no trailing dash whenever the pre-truncation result already fits in 80
characters; an otherwise-empty result and a non-string input both yield the
fixed placeholder `arsiv`. -/
theorem sanitizer_output_shape (v : JStr) :
    sanitizeArchiveName v ≠ [] ∧
    (sanitizeArchiveName v).length ≤ 80 ∧
    (∀ c ∈ sanitizeArchiveName v, isSafeChar c = true) ∧
    noDoubleDash (sanitizeArchiveName v) = true ∧
    (sanitizeArchiveName v).head? ≠ some '-' ∧
    ((sanitizePre v).length ≤ 80 → (sanitizeArchiveName v).getLast? ≠ some '-') ∧
    (sanitizeCore v = [] → sanitizeArchiveName v = jstr "arsiv") ∧
    sanitizeArchiveNameAny none = jstr "arsiv" ∧
    sanitizeArchiveNameAny (some v) = sanitizeArchiveName v := by
  unfold sanitizeArchiveName jsOr
  by_cases hcore : sanitizeCore v = []
  · rw [if_pos hcore]
    refine ⟨by decide, by decide, by decide, by decide, by decide, fun _ => by decide,
      fun _ => rfl, rfl, ?_⟩
    simp [sanitizeArchiveNameAny, sanitizeArchiveName, jsOr, hcore]
  · rw [if_neg hcore]
    refine ⟨hcore, ?_, sanitizeCore_safe v, sanitizeCore_noDD v, sanitizeCore_head v, ?_,
      fun hc => absurd hc hcore, rfl, ?_⟩
    · unfold sanitizeCore
      simp
    · intro hlen
      unfold sanitizeCore
      rw [List.take_of_length_le hlen]
      exact trimEdgeDashes_last _ (collapseDashes_noDD _ false)
    · simp [sanitizeArchiveNameAny, sanitizeArchiveName, jsOr, hcore]

/-- Witness for C6 (amended): the sanitized form of `hello world!!.PNG` is
non-empty, short, and its trailing character is not a dash because no
truncation occurred. -/
theorem sanitizer_output_shape_witness :
    sanitizeArchiveName (jstr "hello world!!.PNG") ≠ [] ∧
    (sanitizePre (jstr "hello world!!.PNG")).length ≤ 80 ∧
    (sanitizeArchiveName (jstr "hello world!!.PNG")).getLast? ≠ some '-' :=
  have h := sanitizer_output_shape (jstr "hello world!!.PNG")
  ⟨h.1, by decide, h.2.2.2.2.2.1 (by decide)⟩

end WeddingPhotoQr
